import Mathlib

set_option maxHeartbeats 1000000
set_option autoImplicit false

/- Verification of the multi-file virtual-array access layer of romsviz
   (src/romsviz/ncout.py, src/romsviz/outvar.py).

   The embedding works at three levels, all translated from the source:
   * a one-dimensional model of the growable (time) axis, where each shard is
     the list of its entries along that axis (`locate`, `compute_time_dist`,
     `sliceRead`, `read_plan`);
   * an effect-trace model of `NetcdfOut.get_var` recording every file open,
     data read and time-axis write in program order (`get_var`);
   * a shape-level model of the path for variables without the growable
     dimension (`get_var_no_time`).
   Python `ValueError`/`TypeError` raise sites are named with the error
   taxonomy the specification uses for them (SchemaError, LimitRangeError,
   LimitTypeError, TimeNotFound). -/

/- ------------------------------------------------------------------ -/
/- Part 1: data model                                                  -/
/- ------------------------------------------------------------------ -/

/-- Python values that can appear as one endpoint of a dimension limit:
`None`, an int, a datetime, or anything else (ncout.py:301 dispatches on
exactly these type classes). The datetime payload is an abstract type `T`. -/
inductive PyVal (T : Type) : Type
  | pyNone : PyVal T
  | pyInt (n : Int) : PyVal T
  | pyDate (t : T) : PyVal T
  | pyOther : PyVal T
deriving DecidableEq, Repr

/-- A user-supplied limit for one dimension, as accepted by
`get_var(**limits)`: either a bare scalar or a two-element tuple/list
(ncout.py:196-201). -/
inductive LimArg (T : Type) : Type
  | scalar (v : PyVal T) : LimArg T
  | pair (a b : PyVal T) : LimArg T
deriving DecidableEq, Repr

/-- Error kinds, one per raise site of the source, named as in the
specification's taxonomy:
`schemaErr` = `ValueError` at ncout.py:172 (unknown variable) and
ncout.py:234 (unknown dimension name), and the `ValueError` at
outvar.py:68; `limitTypeErr` = `TypeError` from comparing a non-int limit
endpoint (ncout.py:251/257) and the explicit `TypeError` at ncout.py:315;
`limitRangeErr` = `ValueError` at ncout.py:254/258; `timeNotFound` =
`ValueError` at ncout.py:330; `internalErr` = the `UnboundLocalError` that
ncout.py:365 hits when a validated index is not located in any shard. -/
inductive Err : Type
  | schemaErr : Err
  | limitTypeErr : Err
  | limitRangeErr : Err
  | timeNotFound : Err
  | internalErr : Err
deriving DecidableEq, Repr

deriving instance DecidableEq for Except

/-- Observable file-system / state effects of an extraction, in program
order: `openF i` = `netCDF4.Dataset(filepaths[i])` is entered, `readTimeData
i` = the time variable's values are read from file `i` (ncout.py:288),
`writeTimeAxis` = `self.time` is assigned (ncout.py:290), `readVarData i` =
the requested variable's data are read from file `i` (ncout.py:142/154). -/
inductive Ev : Type
  | openF (i : Nat) : Ev
  | readTimeData (i : Nat) : Ev
  | writeTimeAxis : Ev
  | readVarData (i : Nat) : Ev
deriving DecidableEq, Repr

/-- Metadata of one variable as read from a file: its ordered dimension
names (`ds.variables[v].dimensions`) and its shape. -/
structure VarMeta : Type where
  dims : List String
  shape : List Nat
deriving DecidableEq, Repr

/-- One shard file: its variable table and the decoded values of its time
variable. -/
structure NCFile (T : Type) : Type where
  vars : List (String × VarMeta)
  times : List T
deriving DecidableEq, Repr

/-- The mutable state a `NetcdfOut` handle carries across `get_var` calls:
only `self.time` (the virtual time axis), absent until first assigned. -/
structure DState (T : Type) : Type where
  time : Option (List T)
deriving DecidableEq, Repr

/- ------------------------------------------------------------------ -/
/- Part 2: the slice planner (ncout.py _compute_time_dist)             -/
/- ------------------------------------------------------------------ -/

/-- Result of the scanning loop at ncout.py:350-363: the running counter
`idx_total` visits each pair (file `i`, local index `j`) exactly once, in
file order, so the `(file_start, i_start)` recorded for a global index is
the unique (shard, local offset) whose cumulative position equals it;
`none` when the index is beyond the last shard (the loop then leaves
`file_start`/`file_stop` unbound and ncout.py:365 raises). -/
def locate : List Nat → Nat → Option (Nat × Nat)
  | [], _ => none
  | s :: rest, idx =>
    if idx < s then some (0, idx)
    else (locate rest (idx - s)).map (fun p => (p.1 + 1, p.2))

/-- The pure tail of `_compute_time_dist` (ncout.py:349-381) once the scan
has produced `(file_start, i_start)` and `(file_stop, i_stop)`: build
`use_files` with the two endpoint shards marked, build `t_dist` with the
endpoint local bounds set (all other entries `(None, None)`), list the
`True` positions (`trues`, via `enumerate`), and, when there are two of
them at distance other than one, fill every position strictly between them
with `True` (ncout.py:378-379). -/
def compute_core (n file_start i_start file_stop i_stop : Nat) :
    List Bool × List (Option Nat × Option Nat) :=
  let use0 := (List.range n).map
    (fun i => decide (i = file_start) || decide (i = file_stop))
  let t_dist := (List.range n).map
    (fun i => ((if i = file_start then some i_start else none),
               (if i = file_stop then some i_stop else none)))
  let trues := (((List.range n).zip use0).filter (fun p => p.2)).map Prod.fst
  let a := trues.getD 0 0
  let b := trues.getD 1 0
  let use_files :=
    if trues.length = 2 ∧ b - a ≠ 1 then
      (List.range n).map
        (fun i => use0.getD i false || (decide (a < i) && decide (i < b)))
    else use0
  (use_files, t_dist)

/-- `_compute_time_dist` (ncout.py:334-381) on the per-shard entry counts
`t_per_file`: locate the shards containing `idx_start` and `idx_stop` and
hand the scan results to `compute_core`; `none` models the
`UnboundLocalError` crash when an index lies beyond every shard. -/
def compute_time_dist (t_per_file : List Nat) (idx_start idx_stop : Nat) :
    Option (List Bool × List (Option Nat × Option Nat)) :=
  match locate t_per_file idx_start, locate t_per_file idx_stop with
  | some p, some q => some (compute_core t_per_file.length p.1 p.2 q.1 q.2)
  | _, _ => none

/-- Reading one shard's entries along the growable axis with a local bound
pair, following `_lims_to_slices` (ncout.py:383-401): an explicit upper
bound `h` becomes the half-open slice ending at `h + 1`, a `None` upper
bound reads through the shard's end, a `None` lower bound reads from the
shard's start (numpy treats a `None` slice start as 0). -/
def sliceRead {α : Type} (xs : List α) (lo hi : Option Nat) : List α :=
  match hi with
  | some h => (xs.take (h + 1)).drop (lo.getD 0)
  | none => xs.drop (lo.getD 0)

/-- The read/concatenate loop of `get_var` (ncout.py:131-145) restricted to
the growable axis: each shard is a list of entries along that axis (an
entry stands for the whole hyper-slab at one time index, since every
non-growable dimension is sliced identically in every file); shards whose
`use_files` flag is set are read with their `t_dist` local bounds, in file
order, and the pieces are concatenated. -/
def read_plan {α : Type} (shards : List (List α)) (use : List Bool)
    (dist : List (Option Nat × Option Nat)) : List α :=
  ((shards.zip (use.zip dist)).map
    (fun p => if p.2.1 then sliceRead p.1 p.2.2.1 p.2.2.2 else [])).flatten

/- ------------------------------------------------------------------ -/
/- Part 2b: limit handling, time lookup, result helpers                -/
/- ------------------------------------------------------------------ -/

/-- The default limit `self.default_lim = (None, None)` (ncout.py:49). -/
def default_lim {T : Type} : PyVal T × PyVal T := (PyVal.pyNone, PyVal.pyNone)

/-- `_get_dim_lims` (ncout.py:176-205): for each dimension of the variable,
in order, take the default when the keyword is absent, duplicate a bare
scalar into `(v, v)`, and keep a supplied pair verbatim. -/
def get_dim_lims {T : Type} (vd_names : List String)
    (limits : List (String × LimArg T)) : List (PyVal T × PyVal T) :=
  vd_names.map (fun vd =>
    match List.lookup vd limits with
    | none => default_lim
    | some (LimArg.scalar v) => (v, v)
    | some (LimArg.pair a b) => (a, b))

/-- `_verify_kwargs` (ncout.py:224-234): every supplied keyword must name a
dimension of the variable, else `ValueError` (the spec's SchemaError). -/
def verify_kwargs {T : Type} (vd_names : List String)
    (limits : List (String × LimArg T)) : Except Err Unit :=
  if limits.all (fun kv => decide (kv.1 ∈ vd_names)) then .ok ()
  else .error .schemaErr

/-- The conjunction `l_1 >= 0 and l_1 <= length and l_2 >= 0 and
l_2 <= length` at ncout.py:251, with Python semantics: evaluated left to
right, a false comparison short-circuits, and comparing a non-int endpoint
against an int raises `TypeError` (the spec's LimitTypeError). -/
def valid_lims_check {T : Type} (l1 l2 : PyVal T) (length : Nat) :
    Except Err Bool :=
  match l1 with
  | PyVal.pyInt a =>
    if a < 0 then .ok false
    else if (length : Int) < a then .ok false
    else
      match l2 with
      | PyVal.pyInt b =>
        if b < 0 then .ok false
        else .ok (decide (b ≤ (length : Int)))
      | _ => .error .limitTypeErr
  | _ => .error .limitTypeErr

/-- The comparison `l_2 < l_1` at ncout.py:257.  It is reached only after
`valid_lims_check` returned `true`, which forces both endpoints to be
ints; other operand kinds are mapped to `TypeError` for totality. -/
def py_lt {T : Type} : PyVal T → PyVal T → Except Err Bool
  | PyVal.pyInt a, PyVal.pyInt b => .ok (decide (a < b))
  | _, _ => .error .limitTypeErr

/-- The body of the `_verify_lims` loop (ncout.py:247-259) for one
dimension: default limits are skipped, an endpoint outside `[0, length]`
raises the spec's LimitRangeError, and so does a lower endpoint exceeding
the upper one. -/
def check_lim {T : Type} [DecidableEq T] (l : PyVal T × PyVal T)
    (length : Nat) : Except Err Unit :=
  if l = default_lim then .ok ()
  else
    match valid_lims_check l.1 l.2 length with
    | .error e => .error e
    | .ok false => .error .limitRangeErr
    | .ok true =>
      match py_lt l.2 l.1 with
      | .error e => .error e
      | .ok true => .error .limitRangeErr
      | .ok false => .ok ()

/-- `_verify_lims` (ncout.py:236-259): zip the limits with the bounds
(`zip` truncates at the shorter list; the zipped dimension names only feed
the error message) and check each pair, stopping at the first failure. -/
def verify_lims {T : Type} [DecidableEq T] :
    List (PyVal T × PyVal T) → List Nat → Except Err Unit
  | [], _ => .ok ()
  | _, [] => .ok ()
  | l :: ls, n :: ns =>
    match check_lim l n with
    | .error e => .error e
    | .ok _ => verify_lims ls ns

/-- The ascending list of indices at which an entry of `time` equals
`d` — the value of `np.where(self.time == date)` at ncout.py:327. -/
def whereEq {T : Type} [DecidableEq T] : List T → T → List Nat
  | [], _ => []
  | x :: xs, d =>
    if x = d then 0 :: (whereEq xs d).map (· + 1)
    else (whereEq xs d).map (· + 1)

/-- `_idx_from_date` (ncout.py:318-332): the first index whose entry equals
the date exactly; `ValueError` (the spec's TimeNotFound) when there is
none. -/
def idx_from_date {T : Type} [DecidableEq T] (time : List T) (date : T) :
    Except Err Nat :=
  match whereEq time date with
  | [] => .error .timeNotFound
  | j :: _ => .ok j

/-- `isIntVal v` holds when `type(v) in [int, np.int8, ...]`
(ncout.py:301,306). -/
def isIntVal {T : Type} : PyVal T → Bool
  | PyVal.pyInt _ => true
  | _ => false

/-- The lookup `self._idx_from_date(t_lim[1])` at ncout.py:311 for an
arbitrary second endpoint: `np.where` compares the datetime axis against
the value, so only a datetime can match; any other type yields an empty
match set and hence the TimeNotFound error. -/
def lookup_pyval {T : Type} [DecidableEq T] (axis : List T) :
    PyVal T → Except Err Nat
  | PyVal.pyDate d => idx_from_date axis d
  | _ => .error .timeNotFound

/-- `_get_time_lims` (ncout.py:292-316): the default limit becomes
`(0, total_length - 1)`; a pair with at least one int-typed endpoint is
returned verbatim; a pair whose first endpoint is a datetime has both
endpoints converted through the time axis; anything else raises
`TypeError` (the spec's LimitTypeError). -/
def get_time_lims {T : Type} [DecidableEq T] (t_lim : PyVal T × PyVal T)
    (total_length : Nat) (axis : List T) : Except Err (PyVal T × PyVal T) :=
  if t_lim = default_lim then
    .ok (PyVal.pyInt 0, PyVal.pyInt ((total_length : Int) - 1))
  else if isIntVal t_lim.1 || isIntVal t_lim.2 then .ok t_lim
  else
    match t_lim.1 with
    | PyVal.pyDate d =>
      match idx_from_date axis d with
      | .error e => .error e
      | .ok i1 =>
        match lookup_pyval axis t_lim.2 with
        | .error e => .error e
        | .ok i2 => .ok (PyVal.pyInt (i1 : Int), PyVal.pyInt (i2 : Int))
    | _ => .error .limitTypeErr

/-- `OutVar.identify_dim` (outvar.py:54-68): the outer loop runs over the
variable's dimension names, the inner loop over the suggestions, returning
the first dimension name equal to some suggestion; `ValueError` when no
dimension matches. -/
def identify_dim : List String → List String → Except Err String
  | [], _ => .error .schemaErr
  | x :: xs, suggestions =>
    if x ∈ suggestions then .ok x else identify_dim xs suggestions

/-- Modelled from the spec sentence for C9, for comparison with the code:
the first candidate, in candidate-list order, that is present in the
variable's dimension list. -/
def identify_dim_spec (dim_names suggestions : List String) : Option String :=
  suggestions.find? (fun s => decide (s ∈ dim_names))

/- ------------------------------------------------------------------ -/
/- Part 2c: the effect-trace model of get_var                          -/
/- ------------------------------------------------------------------ -/

/-- The concatenated virtual time axis `self.time` built by
`set_time_array` (ncout.py:276-290). -/
def time_axis {T : Type} (files : List (NCFile T)) : List T :=
  (files.map NCFile.times).flatten

/-- `_get_num_time_entries` (ncout.py:261-274): total time entries across
all files. -/
def total_time {T : Type} (files : List (NCFile T)) : Nat :=
  (files.map (fun f => f.times.length)).sum

/-- One `netCDF4.Dataset` open per file, in file order (the loops at
ncout.py:270-272 and ncout.py:345-347). -/
def openAll (n : Nat) : List Ev := (List.range n).map Ev.openF

/-- The effects of `set_time_array` (ncout.py:283-288): open each file in
order and read its time variable's values. -/
def openReadTimes (n : Nat) : List Ev :=
  ((List.range n).map (fun i => [Ev.openF i, Ev.readTimeData i])).flatten

/-- Effect-trace model of `NetcdfOut.get_var` (ncout.py:91-157).  It
returns the handle state after the call, the list of file effects in
program order, and the outcome.  Program order: read the variable's
dimension names from file 0 (ncout.py:117, one open; unknown variable
raises the spec's SchemaError), `_verify_kwargs` (118), `_get_dim_lims`
(119), read the shape from file 0 (120, one more open); then, when the
variable has the growable dimension: `set_time_array` (124, opens every
file, reads every time variable, assigns `self.time` unconditionally),
`_get_num_time_entries` (126, opens every file), `_get_time_lims` (127),
`_verify_lims` (128), `_compute_time_dist` (129, opens every file), and
the read loop (135-142, one open and one data read per participating
file); otherwise `_verify_lims` (150) and a single read from file 0
(153-154).  Squeezing and the returned record are outside this model. -/
def get_var {T : Type} [DecidableEq T] (files : List (NCFile T))
    (time_name : String) (s : DState T) (var_name : String)
    (limits : List (String × LimArg T)) :
    DState T × List Ev × Except Err Unit :=
  match List.lookup var_name (files.headD ⟨[], []⟩).vars with
  | none => (s, [Ev.openF 0], .error .schemaErr)
  | some meta =>
    match verify_kwargs meta.dims limits with
    | .error e => (s, [Ev.openF 0], .error e)
    | .ok _ =>
      let lims0 := get_dim_lims meta.dims limits
      if time_name ∈ meta.dims then
        let n := files.length
        let s1 : DState T := ⟨some (time_axis files)⟩
        let ev2 := [Ev.openF 0, Ev.openF 0] ++ openReadTimes n ++
          [Ev.writeTimeAxis]
        let total := total_time files
        let ev3 := ev2 ++ openAll n
        let t_idx := meta.dims.indexOf time_name
        let bounds := meta.shape.set t_idx total
        match get_time_lims (lims0.getD t_idx default_lim) total
            (time_axis files) with
        | .error e => (s1, ev3, .error e)
        | .ok tl =>
          match verify_lims (lims0.set t_idx tl) bounds with
          | .error e => (s1, ev3, .error e)
          | .ok _ =>
            let ev4 := ev3 ++ openAll n
            match tl with
            | (PyVal.pyInt ia, PyVal.pyInt ib) =>
              match compute_time_dist (files.map (fun f => f.times.length))
                  ia.toNat ib.toNat with
              | none => (s1, ev4, .error .internalErr)
              | some ud =>
                (s1, ev4 ++ ((List.range n).map (fun i =>
                  if ud.1.getD i false then [Ev.openF i, Ev.readVarData i]
                  else [])).flatten, .ok ())
            | _ => (s1, ev4, .error .internalErr)
      else
        match verify_lims lims0 meta.shape with
        | .error e => (s, [Ev.openF 0, Ev.openF 0], .error e)
        | .ok _ =>
          (s, [Ev.openF 0, Ev.openF 0, Ev.openF 0, Ev.readVarData 0], .ok ())

/-- The limit-resolution prefix of `get_var` (ncout.py:119 and 127): the
dimension-ordered limits, with the growable dimension's entry resolved
through `_get_time_lims` when the variable has that dimension. -/
def resolved_lims {T : Type} [DecidableEq T] (files : List (NCFile T))
    (time_name : String) (meta : VarMeta)
    (limits : List (String × LimArg T)) :
    Except Err (List (PyVal T × PyVal T)) :=
  let lims0 := get_dim_lims meta.dims limits
  if time_name ∈ meta.dims then
    match get_time_lims (lims0.getD (meta.dims.indexOf time_name) default_lim)
        (total_time files) (time_axis files) with
    | .error e => .error e
    | .ok tl => .ok (lims0.set (meta.dims.indexOf time_name) tl)
  else .ok lims0

/-- The bounds `get_var` validates against (ncout.py:120 and 126): the
file-0 shape, with the growable dimension's entry replaced by the total
entry count across files when the variable has that dimension. -/
def resolved_bounds {T : Type} (files : List (NCFile T)) (time_name : String)
    (meta : VarMeta) : List Nat :=
  if time_name ∈ meta.dims then
    meta.shape.set (meta.dims.indexOf time_name) (total_time files)
  else meta.shape

/- ------------------------------------------------------------------ -/
/- Part 2d: shape model of the growable-dimension-free path            -/
/- ------------------------------------------------------------------ -/

/-- One endpoint of a resolved limit as a Python slice component
(ncout.py:394-399): an int stays, `None` stays `None`; other kinds cannot
survive `_verify_lims`. -/
def to_slice_val {T : Type} : PyVal T → Option Int
  | PyVal.pyInt n => some n
  | _ => none

/-- `_lims_to_slices` (ncout.py:383-401): a limit with a non-`None` upper
endpoint becomes the half-open slice `(l0, l1 + 1)`; otherwise the slice
is open-ended above. -/
def lims_to_slices {T : Type} [DecidableEq T]
    (lims : List (PyVal T × PyVal T)) : List (Option Int × Option Int) :=
  lims.map (fun l =>
    if l.2 = PyVal.pyNone then (to_slice_val l.1, none)
    else (to_slice_val l.1, (to_slice_val l.2).map (· + 1)))

/-- Python slice-index resolution on an axis of length `n`: a negative
index counts from the end (clamped at 0), a non-negative index is clamped
at `n`. -/
def clampIdx (n : Nat) (i : Int) : Nat :=
  if i < 0 then ((n : Int) + i).toNat else min i.toNat n

/-- Length of one axis after applying one slice: resolved stop minus
resolved start (truncated at zero), with `None` meaning the axis start
resp. end. -/
def sliceLenN (n : Nat) (sl : Option Int × Option Int) : Nat :=
  (match sl.2 with
   | some b => clampIdx n b
   | none => n) -
  (match sl.1 with
   | some a => clampIdx n a
   | none => 0)

/-- `numpy.ndarray.squeeze` on a shape (ncout.py:156): every axis of
extent exactly 1 is dropped. -/
def squeezeShape (shape : List Nat) : List Nat :=
  shape.filter (fun m => decide (m ≠ 1))

/-- Per-axis extents of the hyper-rectangle read by
`_get_var_nd(var, slices, ds)` (ncout.py:403-413) for a variable of the
given shape. -/
def extents {T : Type} [DecidableEq T] (shape : List Nat)
    (lims : List (PyVal T × PyVal T)) : List Nat :=
  (shape.zip (lims_to_slices lims)).map (fun p => sliceLenN p.1 p.2)

/-- The fields of the `OutVar` record that `get_var` returns
(ncout.py:115-120 and 156): dimension names, resolved limits, bounds, and
the shape of the squeezed data array. -/
structure OutVarRec (T : Type) : Type where
  dim_names : List String
  lims : List (PyVal T × PyVal T)
  bounds : List Nat
  dataShape : List Nat
deriving DecidableEq, Repr

/-- Shape-level model of the `get_var` branch for a variable without the
growable dimension (ncout.py:115-120 and 148-157): verify the keywords,
resolve the limits, verify them against the file-0 shape, read one
hyper-rectangle from file 0 and squeeze it. -/
def get_var_no_time {T : Type} [DecidableEq T] (meta : VarMeta)
    (limits : List (String × LimArg T)) : Except Err (OutVarRec T) :=
  match verify_kwargs meta.dims limits with
  | .error e => .error e
  | .ok _ =>
    let lims := get_dim_lims meta.dims limits
    match verify_lims lims meta.shape with
    | .error e => .error e
    | .ok _ =>
      .ok ⟨meta.dims, lims, meta.shape, squeezeShape (extents meta.shape lims)⟩

/- ------------------------------------------------------------------ -/
/- Part 2e: concrete datasets used by witnesses and counterexamples    -/
/- ------------------------------------------------------------------ -/

/-- A single-shard dataset (time values decoded as naturals): one variable
`v` over the growable dimension `time` with one entry. -/
def files1 : List (NCFile Nat) := [⟨[("v", ⟨["time"], [1]⟩)], [42]⟩]

/-- A two-shard dataset: variable `v` over `time`, one entry per shard. -/
def files2 : List (NCFile Nat) :=
  [⟨[("v", ⟨["time"], [1]⟩)], [10]⟩, ⟨[("v", ⟨["time"], [1]⟩)], [20]⟩]

/-- First `get_var` call on `files1` with a fresh handle state. -/
def run_a : DState Nat × List Ev × Except Err Unit :=
  get_var files1 "time" ⟨none⟩ "v" []

/-- Second `get_var` call on the state left behind by `run_a`. -/
def run_b : DState Nat × List Ev × Except Err Unit :=
  get_var files1 "time" run_a.1 "v" []

/-- Variable metadata used by the C8 witness: one dimension of size 3. -/
def meta8 : VarMeta := ⟨["a"], [3]⟩

/-- The record `get_var_no_time` produces for `meta8` with limit a=1. -/
def rec8 : OutVarRec Nat := ⟨["a"], [(PyVal.pyInt 1, PyVal.pyInt 1)], [3], []⟩

/- ------------------------------------------------------------------ -/
/- Part 3: lemmas about the planner                                    -/
/- ------------------------------------------------------------------ -/

lemma rv_locate_cons (s : Nat) (rest : List Nat) (idx : Nat) :
    locate (s :: rest) idx =
      if idx < s then some (0, idx)
      else (locate rest (idx - s)).map (fun p => (p.1 + 1, p.2)) := rfl

lemma rv_locate_cons_lt {s : Nat} (rest : List Nat) {idx : Nat} (h : idx < s) :
    locate (s :: rest) idx = some (0, idx) := by
  rw [rv_locate_cons, if_pos h]

lemma rv_locate_zero_inv {s : Nat} {rest : List Nat} {idx j : Nat}
    (h : locate (s :: rest) idx = some (0, j)) : idx < s ∧ j = idx := by
  rw [rv_locate_cons] at h
  by_cases hlt : idx < s
  · rw [if_pos hlt] at h
    exact ⟨hlt, (congrArg Prod.snd (Option.some.inj h)).symm⟩
  · rw [if_neg hlt] at h
    obtain ⟨p, _, hp⟩ := Option.map_eq_some'.mp h
    exact absurd (congrArg Prod.fst hp) (by simp)

lemma rv_locate_succ_inv {s : Nat} {rest : List Nat} {idx f j : Nat}
    (h : locate (s :: rest) idx = some (f + 1, j)) :
    s ≤ idx ∧ locate rest (idx - s) = some (f, j) := by
  rw [rv_locate_cons] at h
  by_cases hlt : idx < s
  · rw [if_pos hlt] at h
    exact absurd (congrArg Prod.fst (Option.some.inj h)) (by simp)
  · rw [if_neg hlt] at h
    obtain ⟨p, hp, hpe⟩ := Option.map_eq_some'.mp h
    have h1 : p.1 = f := by
      have := congrArg Prod.fst hpe; simpa using this
    have h2 : p.2 = j := congrArg Prod.snd hpe
    refine ⟨Nat.le_of_not_lt hlt, ?_⟩
    rw [← h1, ← h2, hp]

lemma rv_locate_lt_length :
    ∀ (sizes : List Nat) (idx f j : Nat),
      locate sizes idx = some (f, j) → f < sizes.length
  | [], _, _, _, h => by simp [locate] at h
  | s :: rest, idx, f, j, h => by
    by_cases hlt : idx < s
    · rw [rv_locate_cons_lt rest hlt] at h
      have : f = 0 := (congrArg Prod.fst (Option.some.inj h)).symm
      simp [this]
    · rw [rv_locate_cons, if_neg hlt] at h
      obtain ⟨p, hp, hpe⟩ := Option.map_eq_some'.mp h
      have h1 : p.1 + 1 = f := congrArg Prod.fst hpe
      have := rv_locate_lt_length rest (idx - s) p.1 p.2 (by rw [hp])
      simp only [List.length_cons]
      omega

lemma rv_locate_exists :
    ∀ (sizes : List Nat) (idx : Nat), idx < sizes.sum →
      ∃ f j, locate sizes idx = some (f, j)
  | [], idx, h => by simp at h
  | s :: rest, idx, h => by
    by_cases hlt : idx < s
    · exact ⟨0, idx, rv_locate_cons_lt rest hlt⟩
    · have hsum : idx - s < rest.sum := by
        simp only [List.sum_cons] at h; omega
      obtain ⟨f, j, hf⟩ := rv_locate_exists rest (idx - s) hsum
      exact ⟨f + 1, j, by rw [rv_locate_cons, if_neg hlt, hf]; rfl⟩

lemma rv_locate_mono :
    ∀ (sizes : List Nat) (a b fa ja fb jb : Nat), a ≤ b →
      locate sizes a = some (fa, ja) → locate sizes b = some (fb, jb) →
      fa ≤ fb
  | [], _, _, _, _, _, _, _, ha, _ => by simp [locate] at ha
  | s :: rest, a, b, fa, ja, fb, jb, hab, ha, hb => by
    by_cases hlta : a < s
    · have : fa = 0 := by
        rw [rv_locate_cons_lt rest hlta] at ha
        exact (congrArg Prod.fst (Option.some.inj ha)).symm
      simp [this]
    · have hltb : ¬ b < s := by omega
      rcases fa with _ | fa'
      · omega
      rcases fb with _ | fb'
      · exact absurd (rv_locate_zero_inv hb).1 hltb
      have ha' := (rv_locate_succ_inv ha).2
      have hb' := (rv_locate_succ_inv hb).2
      have := rv_locate_mono rest (a - s) (b - s) fa' ja fb' jb (by omega) ha' hb'
      omega

lemma rv_filter_range_none (n k : Nat) (h : n ≤ k) :
    (List.range n).filter (fun i => decide (i = k)) = [] := by
  refine List.filter_eq_nil_iff.mpr ?_
  intro a ha
  have := List.mem_range.mp ha
  simp only [decide_eq_true_eq]
  omega

lemma rv_filter_range_single (n k : Nat) (h : k < n) :
    (List.range n).filter (fun i => decide (i = k)) = [k] := by
  induction n with
  | zero => omega
  | succ m ih =>
    rw [List.range_succ, List.filter_append]
    by_cases hk : k < m
    · rw [ih hk]
      have : (m = k) = False := by simp; omega
      simp [List.filter, this]
    · have hk' : k = m := by omega
      subst hk'
      rw [rv_filter_range_none k k le_rfl]
      simp [List.filter]

lemma rv_filter_range_pair (n fs ft : Nat) (h1 : fs < ft) (h2 : ft < n) :
    (List.range n).filter (fun i => decide (i = fs) || decide (i = ft)) =
      [fs, ft] := by
  induction n with
  | zero => omega
  | succ m ih =>
    rw [List.range_succ, List.filter_append]
    by_cases hft : ft < m
    · rw [ih hft]
      have hm1 : (m = fs) = False := by simp; omega
      have hm2 : (m = ft) = False := by simp; omega
      simp [List.filter, hm1, hm2]
    · have hfm : ft = m := by omega
      subst hfm
      have hfront : (List.range ft).filter
          (fun i => decide (i = fs) || decide (i = ft)) =
          (List.range ft).filter (fun i => decide (i = fs)) := by
        refine List.filter_congr ?_
        intro x hx
        have := List.mem_range.mp hx
        have : (x = ft) = False := by simp; omega
        simp [this]
      rw [hfront, rv_filter_range_single ft fs h1]
      simp [List.filter]

lemma rv_zip_range_trues (n : Nat) (g : Nat → Bool) :
    ((((List.range n).zip ((List.range n).map g)).filter
        (fun p => p.2)).map Prod.fst) = (List.range n).filter g := by
  have h1 : (List.range n).zip ((List.range n).map g) =
      (List.range n).map (fun i => (i, g i)) := by
    have := List.zip_map' id g (List.range n)
    rwa [List.map_id] at this
  rw [h1, List.filter_map, List.map_map]
  have h2 : List.filter ((fun p => p.2) ∘ fun i => ((i : Nat), g i))
      (List.range n) = List.filter g (List.range n) := rfl
  have h3 : (Prod.fst ∘ fun i => ((i : Nat), g i)) = fun i => i := rfl
  rw [h2, h3]
  simp

lemma rv_getD_range_map {β : Type} (n i : Nat) (g : Nat → β) (d : β)
    (h : i < n) : ((List.range n).map g).getD i d = g i := by
  have hlen : i < ((List.range n).map g).length := by
    simpa using h
  rw [List.getD_eq_getElem _ _ hlen]
  simp

lemma rv_compute_core_eq (n fs is ft it : Nat) (hle : fs ≤ ft) (hlt : ft < n) :
    compute_core n fs is ft it =
      ((List.range n).map (fun i => decide (fs ≤ i) && decide (i ≤ ft)),
       (List.range n).map (fun i =>
         ((if i = fs then some is else none),
          (if i = ft then some it else none)))) := by
  simp only [compute_core]
  rw [rv_zip_range_trues]
  rcases Nat.lt_or_ge fs ft with hlt2 | hge
  · rw [rv_filter_range_pair n fs ft hlt2 hlt]
    simp only [List.length_cons, List.length_nil, List.getD_cons_zero,
      List.getD_cons_succ]
    by_cases hgap : ft - fs = 1
    · rw [if_neg (by simp [hgap])]
      refine Prod.ext ?_ rfl
      refine List.map_congr_left ?_
      intro x hx
      refine Bool.eq_iff_iff.mpr ?_
      simp only [Bool.or_eq_true, Bool.and_eq_true, decide_eq_true_eq]
      omega
    · rw [if_pos ⟨trivial, hgap⟩]
      refine Prod.ext ?_ rfl
      refine List.map_congr_left ?_
      intro x hx
      have hxn := List.mem_range.mp hx
      rw [rv_getD_range_map n x _ false hxn]
      refine Bool.eq_iff_iff.mpr ?_
      simp only [Bool.or_eq_true, Bool.and_eq_true, decide_eq_true_eq]
      omega
  · have heq : fs = ft := by omega
    subst heq
    have hfil : (List.range n).filter
        (fun i => decide (i = fs) || decide (i = fs)) =
        (List.range n).filter (fun i => decide (i = fs)) := by
      refine List.filter_congr ?_
      intro x hx
      simp
    rw [hfil, rv_filter_range_single n fs hlt]
    rw [if_neg (by simp)]
    refine Prod.ext ?_ rfl
    refine List.map_congr_left ?_
    intro x hx
    refine Bool.eq_iff_iff.mpr ?_
    simp only [Bool.or_eq_true, Bool.and_eq_true, decide_eq_true_eq]
    omega

lemma rv_read_plan_cons {α : Type} (s : List α) (rest : List (List α))
    (u : Bool) (us : List Bool) (d : Option Nat × Option Nat)
    (ds : List (Option Nat × Option Nat)) :
    read_plan (s :: rest) (u :: us) (d :: ds) =
      (if u then sliceRead s d.1 d.2 else []) ++ read_plan rest us ds := by
  simp [read_plan]

lemma rv_read_plan_false {α : Type} :
    ∀ (shards : List (List α)) (us : List Bool)
      (ds : List (Option Nat × Option Nat)),
      (∀ u ∈ us, u = false) → read_plan shards us ds = []
  | [], _, _, _ => rfl
  | _ :: _, [], _, _ => rfl
  | _ :: _, _ :: _, [], _ => rfl
  | s :: rest, u :: us, d :: ds, h => by
    rw [rv_read_plan_cons, h u (List.mem_cons_self u us)]
    simp only [if_neg Bool.false_ne_true, List.nil_append]
    exact rv_read_plan_false rest us ds (fun x hx => h x (List.mem_cons_of_mem _ hx))

lemma rv_read_plan_range_cons {α : Type} (s : List α) (rest : List (List α))
    (g : Nat → Bool) (d : Nat → Option Nat × Option Nat) :
    read_plan (s :: rest) ((List.range (rest.length + 1)).map g)
        ((List.range (rest.length + 1)).map d) =
      (if g 0 then sliceRead s (d 0).1 (d 0).2 else []) ++
        read_plan rest ((List.range rest.length).map (fun i => g (i + 1)))
          ((List.range rest.length).map (fun i => d (i + 1))) := by
  rw [List.range_succ_eq_map]
  simp only [List.map_cons, List.map_map]
  exact rv_read_plan_cons s rest (g 0) _ (d 0) _


lemma rv_read_plan_upper {α : Type} :
    ∀ (shards : List (List α)) (stop ft it : Nat),
      locate (shards.map List.length) stop = some (ft, it) →
      read_plan shards
        ((List.range shards.length).map (fun i => decide (i ≤ ft)))
        ((List.range shards.length).map
          (fun i => ((none : Option Nat), if i = ft then some it else none)))
      = shards.flatten.take (stop + 1)
  | [], stop, ft, it, h => by simp [locate] at h
  | s :: rest, stop, ft, it, h => by
    simp only [List.map_cons] at h
    simp only [List.length_cons]
    rw [rv_read_plan_range_cons]
    by_cases hlt : stop < s.length
    · rw [rv_locate_cons_lt _ hlt] at h
      have hft : ft = 0 := (congrArg Prod.fst (Option.some.inj h)).symm
      subst hft
      have hit : it = stop := (congrArg Prod.snd (Option.some.inj h)).symm
      subst hit
      rw [rv_read_plan_false rest _ _ (by
        intro u hu
        obtain ⟨i, _, rfl⟩ := List.mem_map.mp hu
        simp)]
      show s.take (it + 1) ++ [] = (s ++ rest.flatten).take (it + 1)
      rw [List.append_nil, List.take_append_eq_append_take,
        show it + 1 - s.length = 0 by omega, List.take_zero, List.append_nil]
    · rw [rv_locate_cons, if_neg hlt] at h
      obtain ⟨p, hp, hpe⟩ := Option.map_eq_some'.mp h
      have hft : ft = p.1 + 1 := (congrArg Prod.fst hpe).symm
      subst hft
      have hit : it = p.2 := (congrArg Prod.snd hpe).symm
      subst hit
      have hgm : (List.range rest.length).map
          (fun i => decide (i + 1 ≤ p.1 + 1)) =
          (List.range rest.length).map (fun i => decide (i ≤ p.1)) := by
        refine List.map_congr_left ?_
        intro x _
        exact decide_eq_decide.mpr (by omega)
      have hdm : (List.range rest.length).map
          (fun i => ((none : Option Nat),
            if i + 1 = p.1 + 1 then some p.2 else none)) =
          (List.range rest.length).map
          (fun i => ((none : Option Nat), if i = p.1 then some p.2 else none)) := by
        refine List.map_congr_left ?_
        intro x _
        exact congrArg (Prod.mk none) (if_congr (by omega) rfl rfl)
      rw [hgm, hdm, rv_read_plan_upper rest (stop - s.length) p.1 p.2 (by rw [hp])]
      show s ++ rest.flatten.take (stop - s.length + 1) =
        (s ++ rest.flatten).take (stop + 1)
      rw [List.take_append_eq_append_take,
        List.take_of_length_le (show s.length ≤ stop + 1 by omega),
        show stop + 1 - s.length = stop - s.length + 1 by omega]

lemma rv_read_plan_main {α : Type} :
    ∀ (shards : List (List α)) (start stop fs is ft it : Nat),
      locate (shards.map List.length) start = some (fs, is) →
      locate (shards.map List.length) stop = some (ft, it) →
      start ≤ stop →
      read_plan shards
        ((List.range shards.length).map
          (fun i => decide (fs ≤ i) && decide (i ≤ ft)))
        ((List.range shards.length).map
          (fun i => ((if i = fs then some is else none),
                     (if i = ft then some it else none))))
      = (shards.flatten.take (stop + 1)).drop start
  | [], start, stop, fs, is, ft, it, hs, ht, hss => by simp [locate] at hs
  | s :: rest, start, stop, fs, is, ft, it, hs, ht, hss => by
    simp only [List.map_cons] at hs ht
    simp only [List.length_cons]
    rw [rv_read_plan_range_cons]
    by_cases h1 : start < s.length
    · rw [rv_locate_cons_lt _ h1] at hs
      have hfs : fs = 0 := (congrArg Prod.fst (Option.some.inj hs)).symm
      subst hfs
      have his : is = start := (congrArg Prod.snd (Option.some.inj hs)).symm
      subst his
      by_cases h2 : stop < s.length
      · rw [rv_locate_cons_lt _ h2] at ht
        have hft : ft = 0 := (congrArg Prod.fst (Option.some.inj ht)).symm
        subst hft
        have hit : it = stop := (congrArg Prod.snd (Option.some.inj ht)).symm
        subst hit
        rw [rv_read_plan_false rest _ _ (by
          intro u hu
          obtain ⟨i, _, rfl⟩ := List.mem_map.mp hu
          simp)]
        show (s.take (it + 1)).drop is ++ [] =
          ((s ++ rest.flatten).take (it + 1)).drop is
        rw [List.append_nil, List.take_append_eq_append_take,
          show it + 1 - s.length = 0 by omega, List.take_zero, List.append_nil]
      · rw [rv_locate_cons, if_neg h2] at ht
        obtain ⟨p, hp, hpe⟩ := Option.map_eq_some'.mp ht
        have hft : ft = p.1 + 1 := (congrArg Prod.fst hpe).symm
        subst hft
        have hit : it = p.2 := (congrArg Prod.snd hpe).symm
        subst hit
        have hgm : (List.range rest.length).map
            (fun i => decide (0 ≤ i + 1) && decide (i + 1 ≤ p.1 + 1)) =
            (List.range rest.length).map (fun i => decide (i ≤ p.1)) := by
          refine List.map_congr_left ?_
          intro x _
          refine Bool.eq_iff_iff.mpr ?_
          simp only [Bool.and_eq_true, decide_eq_true_eq]
          omega
        have hdm : (List.range rest.length).map
            (fun i => ((if i + 1 = 0 then some is else none),
              if i + 1 = p.1 + 1 then some p.2 else none)) =
            (List.range rest.length).map
            (fun i => ((none : Option Nat),
              if i = p.1 then some p.2 else none)) := by
          refine List.map_congr_left ?_
          intro x _
          rw [if_neg (show ¬ x + 1 = 0 by omega)]
          exact congrArg (Prod.mk none) (if_congr (by omega) rfl rfl)
        rw [hgm, hdm, rv_read_plan_upper rest (stop - s.length) p.1 p.2 (by rw [hp])]
        show s.drop is ++ rest.flatten.take (stop - s.length + 1) =
          ((s ++ rest.flatten).take (stop + 1)).drop is
        rw [List.take_append_eq_append_take,
          List.take_of_length_le (show s.length ≤ stop + 1 by omega),
          show stop + 1 - s.length = stop - s.length + 1 by omega,
          List.drop_append_eq_append_drop,
          show is - s.length = 0 by omega, List.drop_zero]
    · rw [rv_locate_cons, if_neg h1] at hs
      obtain ⟨q, hq, hqe⟩ := Option.map_eq_some'.mp hs
      have hfs : fs = q.1 + 1 := (congrArg Prod.fst hqe).symm
      subst hfs
      have his : is = q.2 := (congrArg Prod.snd hqe).symm
      subst his
      have h2 : ¬ stop < s.length := by omega
      rw [rv_locate_cons, if_neg h2] at ht
      obtain ⟨p, hp, hpe⟩ := Option.map_eq_some'.mp ht
      have hft : ft = p.1 + 1 := (congrArg Prod.fst hpe).symm
      subst hft
      have hit : it = p.2 := (congrArg Prod.snd hpe).symm
      subst hit
      have hgm : (List.range rest.length).map
          (fun i => decide (q.1 + 1 ≤ i + 1) && decide (i + 1 ≤ p.1 + 1)) =
          (List.range rest.length).map
          (fun i => decide (q.1 ≤ i) && decide (i ≤ p.1)) := by
        refine List.map_congr_left ?_
        intro x _
        refine Bool.eq_iff_iff.mpr ?_
        simp only [Bool.and_eq_true, decide_eq_true_eq]
        omega
      have hdm : (List.range rest.length).map
          (fun i => ((if i + 1 = q.1 + 1 then some q.2 else none),
            if i + 1 = p.1 + 1 then some p.2 else none)) =
          (List.range rest.length).map
          (fun i => ((if i = q.1 then some q.2 else none),
            if i = p.1 then some p.2 else none)) := by
        refine List.map_congr_left ?_
        intro x _
        rw [if_congr (show x + 1 = q.1 + 1 ↔ x = q.1 by omega) rfl rfl,
          if_congr (show x + 1 = p.1 + 1 ↔ x = p.1 by omega) rfl rfl]
      rw [hgm, hdm, rv_read_plan_main rest (start - s.length) (stop - s.length)
        q.1 q.2 p.1 p.2 (by rw [hq]) (by rw [hp]) (by omega)]
      show (rest.flatten.take (stop - s.length + 1)).drop (start - s.length) =
        ((s ++ rest.flatten).take (stop + 1)).drop start
      rw [List.take_append_eq_append_take,
        List.take_of_length_le (show s.length ≤ stop + 1 by omega),
        show stop + 1 - s.length = stop - s.length + 1 by omega,
        List.drop_append_eq_append_drop,
        List.drop_eq_nil_of_le (show s.length ≤ start by omega),
        List.nil_append]

/- ------------------------------------------------------------------ -/
/- Part 4: claims about the planner                                    -/
/- ------------------------------------------------------------------ -/

/-- C1: for every valid global inclusive (start, stop) range over the
growable dimension, concatenating the per-shard sub-reads prescribed by
`_compute_time_dist` (in file order, via the `get_var` loop) reproduces
exactly the slice (start, stop) of the concatenation of all shards. -/
theorem c1_round_trip {α : Type} (shards : List (List α)) (start stop : Nat)
    (h1 : start ≤ stop) (h2 : stop < (shards.map List.length).sum) :
    ∃ use dist,
      compute_time_dist (shards.map List.length) start stop =
        some (use, dist) ∧
      read_plan shards use dist =
        sliceRead shards.flatten (some start) (some stop) := by
  obtain ⟨fs, is, hstart⟩ :=
    rv_locate_exists (shards.map List.length) start (by omega)
  obtain ⟨ft, it, hstop⟩ := rv_locate_exists (shards.map List.length) stop h2
  have hle : fs ≤ ft :=
    rv_locate_mono (shards.map List.length) start stop fs is ft it h1 hstart hstop
  have hft : ft < (shards.map List.length).length :=
    rv_locate_lt_length (shards.map List.length) stop ft it hstop
  refine ⟨(List.range shards.length).map
      (fun k => decide (fs ≤ k) && decide (k ≤ ft)),
    (List.range shards.length).map
      (fun k => ((if k = fs then some is else none),
                 (if k = ft then some it else none))), ?_, ?_⟩
  · simp only [compute_time_dist, hstart, hstop]
    rw [rv_compute_core_eq _ fs is ft it hle hft, List.length_map]
  · exact rv_read_plan_main shards start stop fs is ft it hstart hstop h1

theorem c1_round_trip_witness :
    1 ≤ 3 ∧
    3 < (([[0, 1], [2, 3], [4]] : List (List Nat)).map List.length).sum ∧
    ∃ use dist,
      compute_time_dist
        (([[0, 1], [2, 3], [4]] : List (List Nat)).map List.length) 1 3 =
        some (use, dist) ∧
      read_plan ([[0, 1], [2, 3], [4]] : List (List Nat)) use dist =
        sliceRead ([[0, 1], [2, 3], [4]] : List (List Nat)).flatten
          (some 1) (some 3) :=
  ⟨by decide, by decide,
    c1_round_trip [[0, 1], [2, 3], [4]] 1 3 (by decide) (by decide)⟩

/-- C2: with shard sizes [5, 5, 5], planning the global inclusive range
(3, 7) marks exactly shards 0 and 1 as participating, shard 0 with local
bounds (3, None), shard 1 with local bounds (None, 2), and shard 2 not
participating (with bounds (None, None)). -/
theorem c2_three_shard_plan :
    compute_time_dist [5, 5, 5] 3 7 =
      some ([true, true, false],
            [(some 3, none), (none, some 2), (none, none)]) := by decide

/-- C3: a global range whose two endpoints fall in the same shard `f`
makes exactly that shard participate, with both local bounds explicit
indices (no `None` sentinel), and every other shard not participating. -/
theorem c3_single_shard (sizes : List Nat) (a b f i j : Nat)
    (ha : locate sizes a = some (f, i)) (hb : locate sizes b = some (f, j)) :
    ∃ use dist, compute_time_dist sizes a b = some (use, dist) ∧
      (∀ k, k < sizes.length → (use.getD k false = true ↔ k = f)) ∧
      dist.getD f (none, none) = (some i, some j) ∧
      (∀ k, k < sizes.length → k ≠ f →
        dist.getD k (none, none) = (none, none)) := by
  have hf : f < sizes.length := rv_locate_lt_length sizes a f i ha
  refine ⟨(List.range sizes.length).map
      (fun k => decide (f ≤ k) && decide (k ≤ f)),
    (List.range sizes.length).map
      (fun k => ((if k = f then some i else none),
                 (if k = f then some j else none))), ?_, ?_, ?_, ?_⟩
  · simp only [compute_time_dist, ha, hb]
    rw [rv_compute_core_eq sizes.length f i f j le_rfl hf]
  · intro k hk
    rw [rv_getD_range_map sizes.length k _ false hk]
    simp only [Bool.and_eq_true, decide_eq_true_eq]
    constructor
    · rintro ⟨hfk, hkf⟩; omega
    · rintro rfl; exact ⟨le_rfl, le_rfl⟩
  · rw [rv_getD_range_map sizes.length f _ (none, none) hf]
    simp
  · intro k hk hkf
    rw [rv_getD_range_map sizes.length k _ (none, none) hk]
    simp [hkf]

theorem c3_single_shard_witness :
    ∃ use dist, compute_time_dist [5, 5, 5] 6 8 = some (use, dist) ∧
      (∀ k, k < [5, 5, 5].length → (use.getD k false = true ↔ k = 1)) ∧
      dist.getD 1 (none, none) = (some 1, some 3) ∧
      (∀ k, k < [5, 5, 5].length → k ≠ 1 →
        dist.getD k (none, none) = (none, none)) :=
  c3_single_shard [5, 5, 5] 6 8 1 1 3 (by decide) (by decide)

/- ------------------------------------------------------------------ -/
/- Part 5: claims about time lookup, dim matching, limit typing        -/
/- ------------------------------------------------------------------ -/

lemma rv_whereEq_nil_iff {T : Type} [DecidableEq T] :
    ∀ (time : List T) (d : T), whereEq time d = [] ↔ d ∉ time
  | [], d => by simp [whereEq]
  | x :: xs, d => by
    by_cases hx : x = d
    · simp [whereEq, hx]
    · simp only [whereEq, if_neg hx, List.map_eq_nil_iff, List.mem_cons]
      rw [rv_whereEq_nil_iff xs d]
      constructor
      · intro h hc
        rcases hc with hc | hc
        · exact hx hc.symm
        · exact h hc
      · intro h hc
        exact h (Or.inr hc)

/-- C7: looking a timestamp up in the virtual time axis returns the global
index of the first entry exactly equal to it when one exists (later
duplicates are never returned), and the TimeNotFound error when no entry
equals it exactly. -/
theorem c7_time_lookup {T : Type} [DecidableEq T] :
    ∀ (time : List T) (d : T),
      (d ∈ time → ∃ j, idx_from_date time d = .ok j ∧ time[j]? = some d ∧
        ∀ k, k < j → time[k]? ≠ some d) ∧
      (d ∉ time → idx_from_date time d = .error .timeNotFound)
  | [], d => by
    constructor
    · intro h
      exact absurd h (List.not_mem_nil d)
    · intro _
      rfl
  | x :: xs, d => by
    by_cases hx : x = d
    · constructor
      · intro _
        refine ⟨0, by simp [idx_from_date, whereEq, hx], by simp [hx], ?_⟩
        intro k hk
        omega
      · intro hn
        exact absurd (by rw [hx]; exact List.mem_cons_self d xs) hn
    · have ihp := c7_time_lookup xs d
      cases hxs : whereEq xs d with
      | nil =>
        have hnot : d ∉ xs := (rv_whereEq_nil_iff xs d).mp hxs
        constructor
        · intro hmem
          rcases List.mem_cons.mp hmem with h | h
          · exact absurd h.symm hx
          · exact absurd h hnot
        · intro _
          simp [idx_from_date, whereEq, hx, hxs]
      | cons j rest =>
        have hmemxs : d ∈ xs := by
          by_contra hc
          rw [(rv_whereEq_nil_iff xs d).mpr hc] at hxs
          exact List.noConfusion hxs
        obtain ⟨j', hok, hget, hmin⟩ := ihp.1 hmemxs
        have hj' : j' = j := by
          simp only [idx_from_date, hxs, Except.ok.injEq] at hok
          omega
        subst hj'
        constructor
        · intro _
          refine ⟨j' + 1, ?_, ?_, ?_⟩
          · simp [idx_from_date, whereEq, hx, hxs]
          · simpa using hget
          · intro k hk
            match k with
            | 0 =>
              simp only [List.getElem?_cons_zero, ne_eq, Option.some.injEq]
              exact fun hc => hx hc
            | k' + 1 =>
              simp only [List.getElem?_cons_succ]
              exact hmin k' (by omega)
        · intro hn
          exact absurd (List.mem_cons_of_mem x hmemxs) hn

theorem c7_time_lookup_witness :
    (∃ j, idx_from_date [5, 7, 5] 5 = .ok j ∧ [5, 7, 5][j]? = some 5 ∧
      ∀ k, k < j → [5, 7, 5][k]? ≠ some 5) ∧
    idx_from_date [5, 7, 5] 9 = .error .timeNotFound :=
  ⟨(c7_time_lookup [5, 7, 5] 5).1 (by decide),
   (c7_time_lookup [5, 7, 5] 9).2 (by decide)⟩

/-- C9, counterexample to the claim as stated: with dimensions ["a", "b"]
and candidates ["b", "a"], the first candidate present in the dimension
list is "b", but `identify_dim` returns "a" — the code walks the
dimension list in the outer loop, not the candidate list. -/
theorem c9_identify_dim_counterexample :
    identify_dim ["a", "b"] ["b", "a"] = .ok "a" ∧
    identify_dim_spec ["a", "b"] ["b", "a"] = some "b" ∧
    ("a" : String) ≠ "b" := by
  refine ⟨rfl, rfl, by decide⟩

/-- C9 amended: `identify_dim` returns the first dimension name, in the
variable's dimension order, that equals any candidate; every dimension
before it matches no candidate; it fails when no dimension matches any
candidate. -/
theorem c9_identify_dim (dims sugg : List String) :
    ((∃ y, y ∈ dims ∧ y ∈ sugg) →
      ∃ r pre post, identify_dim dims sugg = .ok r ∧ r ∈ sugg ∧
        dims = pre ++ r :: post ∧ ∀ z ∈ pre, z ∉ sugg) ∧
    ((∀ y ∈ dims, y ∉ sugg) → identify_dim dims sugg = .error .schemaErr) := by
  induction dims with
  | nil =>
    constructor
    · rintro ⟨y, hy, _⟩
      exact absurd hy (List.not_mem_nil y)
    · intro _
      rfl
  | cons x xs ih =>
    by_cases hx : x ∈ sugg
    · constructor
      · intro _
        exact ⟨x, [], xs, by simp [identify_dim, hx], hx, rfl, by simp⟩
      · intro hall
        exact absurd hx (hall x (List.mem_cons_self x xs))
    · constructor
      · rintro ⟨y, hy, hys⟩
        have hyxs : y ∈ xs := by
          rcases List.mem_cons.mp hy with h | h
          · exact absurd (h ▸ hys) hx
          · exact h
        obtain ⟨r, pre, post, hid, hrs, hsplit, hpre⟩ := ih.1 ⟨y, hyxs, hys⟩
        refine ⟨r, x :: pre, post, by simp [identify_dim, hx, hid], hrs,
          by simp [hsplit], ?_⟩
        intro z hz
        rcases List.mem_cons.mp hz with h | h
        · exact h ▸ hx
        · exact hpre z h
      · intro hall
        simp only [identify_dim, if_neg hx]
        exact ih.2 (fun z hz => hall z (List.mem_cons_of_mem _ hz))

theorem c9_identify_dim_witness :
    ∃ r pre post, identify_dim ["a", "b"] ["b", "a"] = .ok r ∧
      r ∈ ["b", "a"] ∧ ["a", "b"] = pre ++ r :: post ∧
      ∀ z ∈ pre, z ∉ ["b", "a"] :=
  (c9_identify_dim ["a", "b"] ["b", "a"]).1 ⟨"a", by decide, by decide⟩

/-- C10: a two-element limit on the growable dimension with at least one
int-typed endpoint is returned verbatim by `_get_time_lims` — no
timestamp-to-index conversion and no type error — whatever the other
endpoint is. -/
theorem c10_int_pair_verbatim {T : Type} [DecidableEq T] (a b : PyVal T)
    (total : Nat) (axis : List T)
    (h : isIntVal a = true ∨ isIntVal b = true) :
    get_time_lims (a, b) total axis = .ok (a, b) := by
  have hne : (a, b) ≠ default_lim := by
    intro he
    have ha : a = PyVal.pyNone := congrArg Prod.fst he
    have hb : b = PyVal.pyNone := congrArg Prod.snd he
    rcases h with h | h
    · rw [ha] at h
      exact absurd h (by simp [isIntVal])
    · rw [hb] at h
      exact absurd h (by simp [isIntVal])
  simp only [get_time_lims]
  rw [if_neg hne, if_pos ((Bool.or_eq_true _ _).mpr h)]

theorem c10_int_pair_verbatim_witness :
    (isIntVal (PyVal.pyInt 3 : PyVal Nat) = true ∨
      isIntVal (PyVal.pyDate 7 : PyVal Nat) = true) ∧
    get_time_lims ((PyVal.pyInt 3 : PyVal Nat), PyVal.pyDate 7) 10 [] =
      .ok (PyVal.pyInt 3, PyVal.pyDate 7) :=
  ⟨Or.inl rfl,
   c10_int_pair_verbatim (PyVal.pyInt 3) (PyVal.pyDate 7) 10 [] (Or.inl rfl)⟩

/- ------------------------------------------------------------------ -/
/- Part 6: claims about the get_var pipeline                           -/
/- ------------------------------------------------------------------ -/

lemma rv_check_lim_default {T : Type} [DecidableEq T] (n : Nat) :
    check_lim (default_lim : PyVal T × PyVal T) n = .ok () := by
  simp [check_lim]

lemma rv_check_lim_int_bad {T : Type} [DecidableEq T] (a b : Int) (n : Nat)
    (h : a < 0 ∨ (n : Int) < a ∨ b < 0 ∨ (n : Int) < b ∨ b < a) :
    check_lim ((PyVal.pyInt a : PyVal T), PyVal.pyInt b) n =
      .error .limitRangeErr := by
  have hne : ((PyVal.pyInt a : PyVal T), PyVal.pyInt b) ≠ default_lim := by
    intro he
    exact PyVal.noConfusion (congrArg Prod.fst he)
  simp only [check_lim, if_neg hne, valid_lims_check, py_lt]
  by_cases h1 : a < 0
  · rw [if_pos h1]
  · rw [if_neg h1]
    by_cases h2 : (n : Int) < a
    · rw [if_pos h2]
    · rw [if_neg h2]
      by_cases h3 : b < 0
      · rw [if_pos h3]
      · rw [if_neg h3]
        by_cases h4 : b ≤ (n : Int)
        · have h5 : b < a := by omega
          rw [decide_eq_true h4, decide_eq_true h5]
        · rw [decide_eq_false h4]

lemma rv_check_lim_int_ok {T : Type} [DecidableEq T] (a b : Int) (n : Nat)
    (h : ¬ (a < 0 ∨ (n : Int) < a ∨ b < 0 ∨ (n : Int) < b ∨ b < a)) :
    check_lim ((PyVal.pyInt a : PyVal T), PyVal.pyInt b) n = .ok () := by
  have hne : ((PyVal.pyInt a : PyVal T), PyVal.pyInt b) ≠ default_lim := by
    intro he
    exact PyVal.noConfusion (congrArg Prod.fst he)
  simp only [check_lim, if_neg hne, valid_lims_check, py_lt]
  rw [if_neg (by omega), if_neg (by omega), if_neg (by omega),
    decide_eq_true (show b ≤ (n : Int) by omega),
    decide_eq_false (show ¬ b < a by omega)]

lemma rv_verify_lims_bad {T : Type} [DecidableEq T] :
    ∀ (lims : List (PyVal T × PyVal T)) (bounds : List Nat),
      (∀ p ∈ lims, p = default_lim ∨
        ∃ a b, p = (PyVal.pyInt a, PyVal.pyInt b)) →
      (∃ i a b, i < lims.length ∧ i < bounds.length ∧
        lims.getD i default_lim = (PyVal.pyInt a, PyVal.pyInt b) ∧
        (a < 0 ∨ (bounds.getD i 0 : Int) < a ∨ b < 0 ∨
          (bounds.getD i 0 : Int) < b ∨ b < a)) →
      verify_lims lims bounds = .error .limitRangeErr
  | [], bounds, _, hbad => by
    obtain ⟨i, a, b, hi, _, _, _⟩ := hbad
    simp at hi
  | l :: ls, [], _, hbad => by
    obtain ⟨i, a, b, _, hi, _, _⟩ := hbad
    simp at hi
  | l :: ls, n :: ns, hall, hbad => by
    rcases hall l (List.mem_cons_self l ls) with hdef | ⟨a, b, hab⟩
    · simp only [verify_lims, hdef, rv_check_lim_default]
      obtain ⟨i, a, b, hi1, hi2, hgd, hviol⟩ := hbad
      match i with
      | 0 =>
        rw [List.getD_cons_zero, hdef] at hgd
        exact absurd (congrArg Prod.fst hgd) (fun hc => PyVal.noConfusion hc)
      | i' + 1 =>
        refine rv_verify_lims_bad ls ns
          (fun p hp => hall p (List.mem_cons_of_mem _ hp)) ?_
        refine ⟨i', a, b, ?_, ?_, ?_, ?_⟩
        · simp at hi1; omega
        · simp at hi2; omega
        · simpa using hgd
        · simpa using hviol
    · by_cases hviol0 : a < 0 ∨ (n : Int) < a ∨ b < 0 ∨ (n : Int) < b ∨ b < a
      · simp only [verify_lims, hab, rv_check_lim_int_bad a b n hviol0]
      · simp only [verify_lims, hab, rv_check_lim_int_ok a b n hviol0]
        obtain ⟨i, a', b', hi1, hi2, hgd, hviol⟩ := hbad
        match i with
        | 0 =>
          rw [List.getD_cons_zero, hab] at hgd
          have ha : a = a' := by
            have := congrArg Prod.fst hgd
            simpa [PyVal.pyInt.injEq] using this
          have hb : b = b' := by
            have := congrArg Prod.snd hgd
            simpa [PyVal.pyInt.injEq] using this
          rw [List.getD_cons_zero] at hviol
          exact absurd (by rw [ha, hb]; exact hviol) hviol0
        | i' + 1 =>
          refine rv_verify_lims_bad ls ns
            (fun p hp => hall p (List.mem_cons_of_mem _ hp)) ?_
          refine ⟨i', a', b', ?_, ?_, ?_, ?_⟩
          · simp at hi1; omega
          · simp at hi2; omega
          · simpa using hgd
          · simpa using hviol

lemma rv_verify_kwargs_bad {T : Type} (vd : List String)
    (limits : List (String × LimArg T))
    (h : ∃ kv ∈ limits, kv.1 ∉ vd) :
    verify_kwargs vd limits = .error .schemaErr := by
  obtain ⟨kv, hmem, hni⟩ := h
  simp only [verify_kwargs]
  rw [if_neg ?_]
  intro hc
  exact hni (of_decide_eq_true (List.all_eq_true.mp hc kv hmem))

/-- C4, counterexample to the claim as stated: after a first `get_var`
call has already built and stored the virtual time axis (the handle state
holds `some [42]`), a second `get_var` call on the same handle still reads
the time variable from the shard file and writes the axis again —
`set_time_array` is invoked unconditionally (ncout.py:124), there is no
cache guard. -/
theorem c4_cache_counterexample :
    run_a.1.time = some [42] ∧
    Ev.writeTimeAxis ∈ run_b.2.1 ∧
    Ev.readTimeData 0 ∈ run_b.2.1 := by decide

/-- C4 amended: every `get_var` call whose variable has the growable
dimension re-reads the shards and rewrites the virtual time axis; the
value written is determined by the files alone (independent of whatever
the handle state held before), so repeated calls store the same axis. -/
theorem c4_time_axis_rebuilt {T : Type} [DecidableEq T]
    (files : List (NCFile T)) (time_name : String) (s : DState T)
    (var_name : String) (limits : List (String × LimArg T)) (meta : VarMeta)
    (hmeta : List.lookup var_name (files.headD ⟨[], []⟩).vars = some meta)
    (hkw : verify_kwargs meta.dims limits = .ok ())
    (htn : time_name ∈ meta.dims) :
    (get_var files time_name s var_name limits).1 =
      ⟨some (time_axis files)⟩ ∧
    Ev.writeTimeAxis ∈ (get_var files time_name s var_name limits).2.1 := by
  refine ⟨?_, ?_⟩
  · simp only [get_var, hmeta, hkw, if_pos htn]
    repeat' split
    all_goals rfl
  · simp only [get_var, hmeta, hkw, if_pos htn]
    repeat' split
    all_goals simp

theorem c4_time_axis_rebuilt_witness :
    (get_var files1 "time" ⟨some [42]⟩ "v" []).1 =
      ⟨some (time_axis files1)⟩ ∧
    Ev.writeTimeAxis ∈ (get_var files1 "time" ⟨some [42]⟩ "v" []).2.1 :=
  c4_time_axis_rebuilt files1 "time" ⟨some [42]⟩ "v" [] ⟨["time"], [1]⟩
    rfl rfl (by decide)

/-- C5, counterexample to the claim as stated: requesting `time = (0, 99)`
on a two-shard dataset with 2 total entries raises the spec's
LimitRangeError, but by then both shards have been opened and their time
variables read (for `set_time_array` and `_get_num_time_entries`) — the
range check does not run before any shard is opened. -/
theorem c5_limit_check_not_first :
    (get_var files2 "time" ⟨none⟩ "v"
      [("time", LimArg.pair (PyVal.pyInt 0) (PyVal.pyInt 99))]).2.2 =
        .error .limitRangeErr ∧
    Ev.openF 1 ∈ (get_var files2 "time" ⟨none⟩ "v"
      [("time", LimArg.pair (PyVal.pyInt 0) (PyVal.pyInt 99))]).2.1 ∧
    Ev.readTimeData 1 ∈ (get_var files2 "time" ⟨none⟩ "v"
      [("time", LimArg.pair (PyVal.pyInt 0) (PyVal.pyInt 99))]).2.1 := by
  decide

/-- C5 amended: whenever some resolved non-default limit has an int
endpoint outside [0, bound] or a lower endpoint exceeding the upper one,
`get_var` fails with the spec's LimitRangeError, and no data of the
requested variable has been read at that point (shards may have been
opened for metadata and time-coordinate reads beforehand). -/
theorem c5_limit_range {T : Type} [DecidableEq T]
    (files : List (NCFile T)) (time_name : String) (s : DState T)
    (var_name : String) (limits : List (String × LimArg T)) (meta : VarMeta)
    (lims : List (PyVal T × PyVal T))
    (hmeta : List.lookup var_name (files.headD ⟨[], []⟩).vars = some meta)
    (hkw : verify_kwargs meta.dims limits = .ok ())
    (hres : resolved_lims files time_name meta limits = .ok lims)
    (hall : ∀ p ∈ lims, p = default_lim ∨
      ∃ a b, p = (PyVal.pyInt a, PyVal.pyInt b))
    (hbad : ∃ i a b, i < lims.length ∧
      i < (resolved_bounds files time_name meta).length ∧
      lims.getD i default_lim = (PyVal.pyInt a, PyVal.pyInt b) ∧
      (a < 0 ∨ ((resolved_bounds files time_name meta).getD i 0 : Int) < a ∨
        b < 0 ∨ ((resolved_bounds files time_name meta).getD i 0 : Int) < b ∨
        b < a)) :
    (get_var files time_name s var_name limits).2.2 =
      .error .limitRangeErr ∧
    ∀ j, Ev.readVarData j ∉ (get_var files time_name s var_name limits).2.1 := by
  have hv : verify_lims lims (resolved_bounds files time_name meta) =
      .error .limitRangeErr := rv_verify_lims_bad lims _ hall hbad
  by_cases htn : time_name ∈ meta.dims
  · simp only [resolved_lims, if_pos htn] at hres
    cases hgt : get_time_lims ((get_dim_lims meta.dims limits).getD
        (meta.dims.indexOf time_name) default_lim) (total_time files)
        (time_axis files) with
    | error e =>
      rw [hgt] at hres
      exact absurd hres (by simp)
    | ok tl =>
      rw [hgt] at hres
      have hlims : (get_dim_lims meta.dims limits).set
          (meta.dims.indexOf time_name) tl = lims := by
        simpa using hres
      simp only [resolved_bounds, if_pos htn] at hv
      simp only [get_var, hmeta, hkw, if_pos htn, hgt]
      rw [hlims, hv]
      refine ⟨rfl, ?_⟩
      intro j
      simp [openAll, openReadTimes]
  · simp only [resolved_lims, if_neg htn] at hres
    have hlims : get_dim_lims meta.dims limits = lims := by
      simpa using hres
    simp only [resolved_bounds, if_neg htn] at hv
    simp only [get_var, hmeta, hkw, if_neg htn]
    rw [hlims, hv]
    refine ⟨rfl, ?_⟩
    intro j
    simp

theorem c5_limit_range_witness :
    (get_var files2 "time" ⟨none⟩ "v"
      [("time", LimArg.pair (PyVal.pyInt 0) (PyVal.pyInt 99))]).2.2 =
        .error .limitRangeErr ∧
    ∀ j, Ev.readVarData j ∉ (get_var files2 "time" ⟨none⟩ "v"
      [("time", LimArg.pair (PyVal.pyInt 0) (PyVal.pyInt 99))]).2.1 :=
  c5_limit_range files2 "time" ⟨none⟩ "v"
    [("time", LimArg.pair (PyVal.pyInt 0) (PyVal.pyInt 99))]
    ⟨["time"], [1]⟩ [(PyVal.pyInt 0, PyVal.pyInt 99)] rfl rfl (by decide)
    (by
      intro p hp
      rcases List.mem_singleton.mp hp with rfl
      exact Or.inr ⟨0, 99, rfl⟩)
    ⟨0, 0, 99, by decide, by decide, by decide,
      Or.inr (Or.inr (Or.inr (Or.inl (by decide))))⟩

/-- C6, counterexample to the claim as stated: an unknown dimension name
in the limits mapping does raise the spec's SchemaError, but not with
zero file opens — the first shard has been opened once (to probe the
variable's dimension names, ncout.py:117) before `_verify_kwargs` runs. -/
theorem c6_not_zero_opens :
    (get_var files1 "time" ⟨none⟩ "v"
      [("bogus", LimArg.scalar (PyVal.pyInt 0))]).2.2 = .error .schemaErr ∧
    (get_var files1 "time" ⟨none⟩ "v"
      [("bogus", LimArg.scalar (PyVal.pyInt 0))]).2.1 = [Ev.openF 0] ∧
    Ev.openF 0 ∈ (get_var files1 "time" ⟨none⟩ "v"
      [("bogus", LimArg.scalar (PyVal.pyInt 0))]).2.1 := by decide

/-- C6 amended: a limits mapping containing a key that is not a dimension
of the requested variable makes `get_var` fail with the spec's
SchemaError; at that moment the only file effect is one metadata open of
the first shard — no variable data has been read and no other file has
been touched. -/
theorem c6_unknown_dim {T : Type} [DecidableEq T]
    (files : List (NCFile T)) (time_name : String) (s : DState T)
    (var_name : String) (limits : List (String × LimArg T)) (meta : VarMeta)
    (hmeta : List.lookup var_name (files.headD ⟨[], []⟩).vars = some meta)
    (hbadkey : ∃ kv ∈ limits, kv.1 ∉ meta.dims) :
    get_var files time_name s var_name limits =
      (s, [Ev.openF 0], .error .schemaErr) := by
  simp only [get_var, hmeta, rv_verify_kwargs_bad meta.dims limits hbadkey]

theorem c6_unknown_dim_witness :
    get_var files1 "time" ⟨none⟩ "v"
      [("bogus", LimArg.scalar (PyVal.pyInt 0))] =
      (⟨none⟩, [Ev.openF 0], .error .schemaErr) :=
  c6_unknown_dim files1 "time" ⟨none⟩ "v"
    [("bogus", LimArg.scalar (PyVal.pyInt 0))] ⟨["time"], [1]⟩ rfl
    ⟨("bogus", LimArg.scalar (PyVal.pyInt 0)), by decide, by decide⟩

/- ------------------------------------------------------------------ -/
/- Part 7: claims about squeezing and the result record                -/
/- ------------------------------------------------------------------ -/

lemma rv_extents_single {T : Type} [DecidableEq T] :
    ∀ (shape : List Nat) (lims : List (PyVal T × PyVal T)) (i : Nat) (a : Int),
      i < shape.length → i < lims.length →
      lims.getD i default_lim = (PyVal.pyInt a, PyVal.pyInt a) →
      0 ≤ a → a < (shape.getD i 0 : Int) →
      (extents shape lims).getD i 0 = 1
  | [], _, i, _, h, _, _, _, _ => by simp at h
  | _ :: _, [], i, _, _, h, _, _, _ => by simp at h
  | n :: ns, l :: ls, 0, a, _, _, hgd, ha0, han => by
    rw [List.getD_cons_zero] at hgd
    subst hgd
    rw [List.getD_cons_zero] at han
    simp only [extents, lims_to_slices, List.map_cons, List.zip_cons_cons,
      List.getD_cons_zero]
    rw [if_neg (fun hc => PyVal.noConfusion hc)]
    simp only [to_slice_val, Option.map_some', sliceLenN, clampIdx,
      if_neg (show ¬ (a : Int) < 0 by omega),
      if_neg (show ¬ (a + 1 : Int) < 0 by omega)]
    rw [Nat.min_eq_left (by omega), Nat.min_eq_left (by omega)]
    omega
  | n :: ns, l :: ls, i + 1, a, h1, h2, hgd, ha0, han => by
    rw [List.getD_cons_succ] at hgd han
    have := rv_extents_single ns ls i a (by simpa using h1) (by simpa using h2)
      hgd ha0 han
    simpa [extents, lims_to_slices] using this

/-- C8, counterexample to the claim as stated: extracting a variable of
shape [1, 4] with no limits at all resolves every limit to the default
(no axis collapsed to a single index), yet the returned array shape is
[4], not [1, 4] — `numpy.squeeze` drops every axis of extent 1, including
a dimension whose natural size is 1 read in full. -/
theorem c8_squeeze_counterexample :
    get_var_no_time ⟨["a", "b"], [1, 4]⟩ ([] : List (String × LimArg Nat)) =
      .ok ⟨["a", "b"], [default_lim, default_lim], [1, 4], [4]⟩ ∧
    ([4] : List Nat) ≠ [1, 4] := by decide

/-- C8 amended: the returned array's shape omits exactly the axes whose
extracted extent is one element — this includes every axis whose resolved
limit collapsed to a single in-range index, but also axes of natural size
1 read in full — while the record's dimension names, limits and bounds
keep one entry per original dimension. -/
theorem c8_squeeze {T : Type} [DecidableEq T] (meta : VarMeta)
    (limits : List (String × LimArg T)) (r : OutVarRec T)
    (h : get_var_no_time meta limits = .ok r) :
    r.dim_names = meta.dims ∧
    r.lims.length = meta.dims.length ∧
    r.bounds = meta.shape ∧
    r.dataShape = squeezeShape (extents meta.shape r.lims) ∧
    (∀ i a, i < meta.shape.length → i < r.lims.length →
      r.lims.getD i default_lim = (PyVal.pyInt a, PyVal.pyInt a) →
      0 ≤ a → a < (meta.shape.getD i 0 : Int) →
      (extents meta.shape r.lims).getD i 0 = 1) := by
  cases hkw : verify_kwargs meta.dims limits with
  | error e =>
    simp only [get_var_no_time, hkw] at h
    exact absurd h (by simp)
  | ok u =>
    cases u
    cases hv : verify_lims (get_dim_lims meta.dims limits) meta.shape with
    | error e =>
      simp only [get_var_no_time, hkw, hv] at h
      exact absurd h (by simp)
    | ok u2 =>
      cases u2
      simp only [get_var_no_time, hkw, hv] at h
      have hr := Except.ok.inj h
      subst hr
      refine ⟨rfl, ?_, rfl, rfl, ?_⟩
      · simp [get_dim_lims]
      · intro i a hi1 hi2 hgd ha0 han
        exact rv_extents_single meta.shape (get_dim_lims meta.dims limits)
          i a hi1 hi2 hgd ha0 han

theorem c8_squeeze_witness :
    rec8.dim_names = meta8.dims ∧
    rec8.lims.length = meta8.dims.length ∧
    rec8.bounds = meta8.shape ∧
    rec8.dataShape = squeezeShape (extents meta8.shape rec8.lims) ∧
    (∀ i a, i < meta8.shape.length → i < rec8.lims.length →
      rec8.lims.getD i default_lim = (PyVal.pyInt a, PyVal.pyInt a) →
      0 ≤ a → a < (meta8.shape.getD i 0 : Int) →
      (extents meta8.shape rec8.lims).getD i 0 = 1) :=
  c8_squeeze meta8 [("a", LimArg.scalar (PyVal.pyInt 1))] rec8 (by decide)
